import Mathlib

/-!
Verification of the smart-quote core: a shallow embedding of the
quote-acquisition pipeline (app/core/quote_fetcher.py, app/utils/cache_utils.py,
app/data/local_quotes.py) and of the color / layout / rendering helpers
(app/design/color_palette.py, app/design/image_generator.py).

Conventions of the embedding:
* Python strings are Lean `String`s; character-level work uses `String.data`.
* Machine floats of the source are modelled with exact rationals `ℚ`
  (the brightness weights 0.299/0.587/0.114 are exact decimals).
* `time.time()` / `time.sleep()` are modelled by an explicit rational clock:
  a sleep of `d` advances the clock by exactly `d`.
* Fallible operations (disk, network, JSON parsing) are supplied by an
  environment record as `Except`/`Option` values; each `try/except` of the
  source is mirrored by a `match` on the corresponding environment field.
* `random.choice(l)` is modelled by an environment-supplied index taken
  modulo `l.length`.
-/

namespace SmartQuote

/-! ## app/design/color_palette.py — hex/RGB conversion and brightness -/

/-- Value of one hex digit, as accepted by Python `int(s, 16)`
(both lowercase and uppercase letters). -/
def hexDigitVal (c : Char) : Option Nat :=
  if '0' ≤ c ∧ c ≤ '9' then some (c.toNat - 48)
  else if 'a' ≤ c ∧ c ≤ 'f' then some (c.toNat - 87)
  else if 'A' ≤ c ∧ c ≤ 'F' then some (c.toNat - 55)
  else none

def parseHexLoop (acc : Nat) : List Char → Option Nat
  | [] => some acc
  | c :: t =>
    match hexDigitVal c with
    | none => none
    | some v => parseHexLoop (16 * acc + v) t

/-- Python `int(s, 16)` restricted to plain hex digits; `int('', 16)` raises,
hence `none` on the empty slice. -/
def parseHex (l : List Char) : Option Nat :=
  if l = [] then none else parseHexLoop 0 l

/-- `ColorPalette.hex_to_rgb`: `hex_color.lstrip('#')` then
`int(hex_color[i:i+2], 16) for i in (0, 2, 4)`.  `none` models the
`ValueError` Python raises on a malformed color. -/
def hex_to_rgb (s : String) : Option (Nat × Nat × Nat) := do
  let t := s.data.dropWhile (· = '#')
  let r ← parseHex ((t.drop 0).take 2)
  let g ← parseHex ((t.drop 2).take 2)
  let b ← parseHex ((t.drop 4).take 2)
  pure (r, g, b)

/-- The `{:02x}` format item: lowercase hex, zero-padded to width 2.
For `n < 256` this is exactly two digits. -/
def toHex2 (n : Nat) : List Char :=
  if n < 256 then [Nat.digitChar (n / 16), Nat.digitChar (n % 16)]
  else Nat.toDigits 16 n

/-- `ColorPalette.rgb_to_hex`: `'#{:02x}{:02x}{:02x}'.format(*rgb)`. -/
def rgb_to_hex (r g b : Nat) : String :=
  ⟨'#' :: (toHex2 r ++ toHex2 g ++ toHex2 b)⟩

/-- `ColorPalette.calculate_brightness`: perceived brightness
`rgb[0]*0.299 + rgb[1]*0.587 + rgb[2]*0.114`, with exact rationals for the
source's floats.  `none` models the exception on an invalid color. -/
def calculate_brightness (s : String) : Option ℚ :=
  (hex_to_rgb s).map (fun rgb =>
    (rgb.1 : ℚ) * (0.299 : ℚ) + (rgb.2.1 : ℚ) * (0.587 : ℚ) + (rgb.2.2 : ℚ) * (0.114 : ℚ))

/-- `ColorPalette.ensure_contrast`: light background (brightness > 128) →
near-black `#1A1A1A`, else near-white `#FAFAFA`.  The `text_color` and
`min_brightness_diff` parameters are unused by the source body. -/
def ensure_contrast (bg_color : String) (_text_color : String) : Option String :=
  (calculate_brightness bg_color).map (fun b =>
    if b > 128 then "#1A1A1A" else "#FAFAFA")

/-- Lowercase hex digits (0-9 then a-f), for stating the round-trip
property. -/
def lowerHexDigits : List Char := (List.range 16).map Nat.digitChar

/-! ## app/core/quote_fetcher.py — data model -/

/-- A quote record.  Python passes these around as dicts whose key set varies
with the producer (remote fetch, disk cache, local pool, fallback); the
optional fields model keys that may be absent. -/
structure Quote where
  content : String
  author : String
  tags : List String
  lengthF : Option Nat := none
  idF : Option String := none
  sourceF : Option String := none
  themeF : Option String := none
deriving DecidableEq, Inhabited

/-- The disk-backed cache object `{'quotes': [...], 'timestamp': ...}`. -/
structure Cache where
  quotes : List Quote
  timestamp : ℚ
deriving DecidableEq, Inhabited

/-- `{'quotes': [], 'timestamp': 0}`, the default of `_load_cache`. -/
def emptyCache : Cache := ⟨[], 0⟩

/-- One element of the ZenQuotes JSON array; `q`/`a`/`h` keys may be absent. -/
structure RawQuote where
  qF : Option String := none
  aF : Option String := none
  hF : Option String := none

/-- Exceptions `_fetch_single_quote` can see from `requests`. -/
inductive NetErr
  | http429
  | httpOther
  | netOther

/-- Exceptions that escape this core to the caller: an `OSError` family
exception (`FileExistsError`/`PermissionError`) from the unguarded `mkdir` in
`_save_cache`, and the `AttributeError` from calling `.get` on a cache object
that is valid JSON but not a dict. -/
inductive PyExn
  | osError
  | attrError
deriving DecidableEq

/-- What `json.load` can hand back for the cache file: a dict (whose possibly
missing `quotes`/`timestamp` keys behave, at every access site, like the
defaults `[]`/`0`, so a well-shaped dict is modelled by `Cache` directly), or
a valid-JSON value of any other top-level type, which `_load_cache` returns
unvalidated. -/
inductive CacheVal
  | dict (c : Cache)
  | other
deriving DecidableEq

/-- Environment of one `fetch_random_quote` call: the clock, the outcomes of
the fallible disk and network operations, and the sources of randomness.
`mkdirRaw` is the outcome of `cache_path.parent.mkdir(...)`, which the source
performs outside its `try`. -/
structure FetchEnv where
  now : ℚ
  loadRaw : Except Unit CacheVal
  mkdirRaw : Except Unit Unit
  saveRaw : Except Unit Unit
  netResults : Nat → Except NetErr (List RawQuote)
  hashStr : String → String
  pickIdx : Nat
  localOk : Bool

/-- Mutable state of a `QuoteFetcher` instance (once the cache is known to be
dict-shaped). -/
structure FetcherState where
  cache : Cache
  lastRequestTime : ℚ

/-! ## app/core/quote_fetcher.py — operations -/

/-- `QuoteFetcher._load_cache`: a read or parse error is caught
(`except: pass`) and the empty cache is returned, but a successful
`json.load` is returned without validation — a valid-JSON non-dict value
passes through. -/
def load_cache (env : FetchEnv) : CacheVal :=
  match env.loadRaw with
  | .ok v => v
  | .error _ => .dict emptyCache

/-- `QuoteFetcher._save_cache`: the `mkdir(parents=True, exist_ok=True)` call
is outside the `try`, so its exception (path occupied by a regular file, or
permission denied) propagates; only the open/dump error is printed and
swallowed. -/
def save_cache (env : FetchEnv) : Except PyExn Unit :=
  match env.mkdirRaw with
  | .error _ => .error .osError
  | .ok _ =>
    match env.saveRaw with
    | .ok _ => .ok ()
    | .error _ => .ok ()

/-- `QuoteFetcher._fetch_single_quote`: every `requests` exception (including
the 429 rate-limit response) is caught and yields `None`; an empty JSON array
also yields `None`; otherwise the record is built from the first element. -/
def fetch_single_quote (env : FetchEnv) (attempt : Nat) : Option Quote :=
  match env.netResults attempt with
  | .error _ => none
  | .ok data =>
    match data with
    | [] => none
    | r :: _ =>
      some { content := r.qF.getD ""
             author := r.aF.getD "Unknown"
             tags := []
             lengthF := some (r.qF.getD "").length
             idF := some (r.hF.getD ("zen_" ++ env.hashStr (r.qF.getD "")))
             sourceF := some "zenquotes" }

/-- `QuoteFetcher.THEME_KEYWORDS`; `none` is the Python `None` bound to
`'auto'`. -/
def THEME_KEYWORDS : List (String × Option (List String)) :=
  [("motivation", some ["motivate", "inspire", "success", "achieve", "goal", "dream", "action"]),
   ("sagesse", some ["wisdom", "knowledge", "learn", "understand", "philosophy", "truth"]),
   ("amour", some ["love", "heart", "compassion", "kindness", "care", "affection"]),
   ("courage", some ["courage", "brave", "fear", "strength", "perseverance", "resilience"]),
   ("succès", some ["success", "achievement", "win", "victory", "accomplish", "excel"]),
   ("bonheur", some ["happiness", "joy", "smile", "grateful", "positive", "delight"]),
   ("inspiration", some ["inspire", "creative", "imagine", "dream", "vision", "passion"]),
   ("auto", none)]

/-- `self.THEME_KEYWORDS.get(theme, [])`. -/
def kwGet (theme : String) : Option (List String) :=
  match THEME_KEYWORDS.lookup theme with
  | some v => v
  | none => some []

/-- The key set of `THEME_KEYWORDS` (for `theme in self.THEME_KEYWORDS`). -/
def themeKeys : List String := THEME_KEYWORDS.map (·.1)

/-- Python `str.lower()`, restricted to ASCII case folding. -/
def lowerStr (s : String) : String := ⟨s.data.map Char.toLower⟩

/-- Does `n` occur at the start of `h`? -/
def leadsIn : List Char → List Char → Bool
  | [], _ => true
  | _ :: _, [] => false
  | a :: n, b :: h => a == b && leadsIn n h

/-- Python's `needle in haystack` on strings: contiguous substring test. -/
def occursIn (n : List Char) : List Char → Bool
  | [] => leadsIn n []
  | c :: t => leadsIn n (c :: t) || occursIn n t

/-- `QuoteFetcher._matches_theme`: `'auto'` matches everything; a falsy keyword
entry (`None` or `[]`) matches everything; otherwise some keyword must occur in
the lowercased content. -/
def matches_theme (quote : Quote) (theme : String) : Bool :=
  if theme = "auto" then true
  else
    match kwGet theme with
    | none => true
    | some [] => true
    | some ks =>
      let contentLower := lowerStr quote.content
      ks.any (fun k => occursIn k.data contentLower.data)

/-- The cache insertion of `fetch_random_quote` (lines 115-119): evict the
oldest entry when the cache already holds 50, then append. -/
def addToCache {α : Type} (qs : List α) (q : α) : List α :=
  (if qs.length ≥ 50 then qs.drop 1 else qs) ++ [q]

/-- `QuoteFetcher.MIN_REQUEST_DELAY` (seconds). -/
def MIN_REQUEST_DELAY : ℚ := 2

/-- `QuoteFetcher._wait_for_rate_limit` on the rational clock: given the last
stamp and the current time, return the slept duration and the new stamp
(`time.time()` after the optional sleep; sleeping is modelled as advancing the
clock by exactly the requested duration). -/
def wait_for_rate_limit (last now : ℚ) : ℚ × ℚ :=
  let elapsed := now - last
  if elapsed < MIN_REQUEST_DELAY then
    let wait := MIN_REQUEST_DELAY - elapsed
    (wait, now + wait)
  else (0, now)

/-- `QuoteFetcher._get_from_cache`: empty cache → `None`; a known non-auto
theme first tries the records matching the theme; otherwise (or when no record
matches) a random cached record is returned. -/
def get_from_cache (pick : Nat) (cache : Cache) (theme : String) : Option Quote :=
  match cache.quotes with
  | [] => none
  | q0 :: rest =>
    if theme ≠ "auto" ∧ theme ∈ themeKeys then
      match (q0 :: rest).filter (fun q => matches_theme q theme) with
      | [] => some ((q0 :: rest).getD (pick % (q0 :: rest).length) q0)
      | m0 :: ms => some ((m0 :: ms).getD (pick % (m0 :: ms).length) m0)
    else some ((q0 :: rest).getD (pick % (q0 :: rest).length) q0)

/-- `QuoteFetcher._get_fallback_quote`: the hard-coded fallback record. -/
def fallbackQuote : Quote :=
  { content := "Le succès est la somme de petits efforts répétés jour après jour."
    author := "Robert Collier"
    tags := ["motivation"]
    lengthF := some 68
    idF := some "fallback"
    sourceF := some "fallback" }

/-! ## app/data/local_quotes.py -/

/-- The static local pool.  The pool literals carry only `content`, `author`,
`tags` and `theme`; `length`, `id` and `source` are absent until a fetch
mutates the entry. -/
def FRENCH_QUOTES : List Quote :=
  [{ content := "Le succès n'est pas final, l'échec n'est pas fatal : c'est le courage de continuer qui compte.", author := "Winston Churchill", tags := ["motivation"], themeF := some "motivation" },
   { content := "La seule façon de faire du bon travail est d'aimer ce que vous faites.", author := "Steve Jobs", tags := ["succès", "passion"], themeF := some "succès" },
   { content := "Croyez que vous pouvez le faire et vous êtes à mi-chemin.", author := "Theodore Roosevelt", tags := ["motivation"], themeF := some "motivation" },
   { content := "Le bonheur n'est pas quelque chose de prêt à l'emploi. Il vient de vos propres actions.", author := "Dalaï Lama", tags := ["bonheur"], themeF := some "bonheur" },
   { content := "Dans un an, vous regretterez de ne pas avoir commencé aujourd'hui.", author := "Karen Lamb", tags := ["motivation"], themeF := some "motivation" },
   { content := "La meilleure façon de prédire l'avenir est de le créer.", author := "Peter Drucker", tags := ["succès"], themeF := some "succès" },
   { content := "Soyez vous-même; tous les autres sont déjà pris.", author := "Oscar Wilde", tags := ["sagesse"], themeF := some "sagesse" },
   { content := "L'imagination est plus importante que le savoir.", author := "Albert Einstein", tags := ["sagesse"], themeF := some "sagesse" },
   { content := "Le courage n'est pas l'absence de peur, mais la capacité de la vaincre.", author := "Nelson Mandela", tags := ["courage"], themeF := some "courage" },
   { content := "La vie est ce qui arrive quand vous êtes occupé à faire d'autres plans.", author := "John Lennon", tags := ["sagesse"], themeF := some "sagesse" },
   { content := "Vous manquez 100% des coups que vous ne tentez pas.", author := "Wayne Gretzky", tags := ["motivation"], themeF := some "motivation" },
   { content := "Ce qui ne nous tue pas nous rend plus fort.", author := "Friedrich Nietzsche", tags := ["courage"], themeF := some "courage" },
   { content := "Soyez le changement que vous voulez voir dans le monde.", author := "Mahatma Gandhi", tags := ["inspiration"], themeF := some "inspiration" },
   { content := "La plus grande gloire n'est pas de ne jamais tomber, mais de se relever à chaque chute.", author := "Confucius", tags := ["courage"], themeF := some "courage" },
   { content := "Il n'y a qu'une façon d'échouer, c'est d'abandonner avant d'avoir réussi.", author := "Olivier Lockert", tags := ["motivation"], themeF := some "motivation" },
   { content := "L'avenir appartient à ceux qui croient en la beauté de leurs rêves.", author := "Eleanor Roosevelt", tags := ["inspiration"], themeF := some "inspiration" },
   { content := "Le meilleur moment pour planter un arbre était il y a 20 ans. Le deuxième meilleur moment est maintenant.", author := "Proverbe chinois", tags := ["motivation"], themeF := some "motivation" },
   { content := "Ne comptez pas les jours, faites que les jours comptent.", author := "Muhammad Ali", tags := ["motivation"], themeF := some "motivation" },
   { content := "La seule limite à notre réalisation de demain sera nos doutes d'aujourd'hui.", author := "Franklin D. Roosevelt", tags := ["motivation"], themeF := some "motivation" },
   { content := "Agissez comme s'il était impossible d'échouer.", author := "Winston Churchill", tags := ["motivation"], themeF := some "motivation" }]

/-- The filter of `get_random_quote`: `theme.lower() in [t.lower() for t in
q.get('tags', [])] or q.get('theme', '').lower() == theme.lower()`. -/
def localFilter (t : String) (q : Quote) : Bool :=
  (q.tags.map lowerStr).contains (lowerStr t) || lowerStr (q.themeF.getD "") == lowerStr t

/-- Pool indices `random.choice` draws from: indices matching the theme when a
truthy non-auto theme is given and some index matches, else all indices. -/
def candIdxs (pool : List Quote) (theme : Option String) : List Nat :=
  match theme with
  | none => List.range pool.length
  | some t =>
    if t ≠ "" ∧ t ≠ "auto" then
      match (List.range pool.length).filter (fun i => localFilter t (pool.getD i default)) with
      | [] => List.range pool.length
      | f0 :: fs => f0 :: fs
    else List.range pool.length

/-- The pool index of the entry `random.choice` picked. -/
def chosenIdx (pool : List Quote) (theme : Option String) (pick : Nat) : Nat :=
  (candIdxs pool theme).getD (pick % (candIdxs pool theme).length) 0

/-- The in-place mutation `quote['length'] = ...; quote['id'] = ...;
quote['source'] = 'local'` applied to the chosen dict. -/
def updLocal (hashStr : String → String) (q : Quote) : Quote :=
  { q with lengthF := some q.content.length
           idF := some ("local_" ++ hashStr q.content)
           sourceF := some "local" }

/-- `get_random_quote` of app/data/local_quotes.py.  Because `random.choice`
returns a reference into the pool list and the function then assigns keys on
it, the function both returns the updated record and leaves the pool with the
chosen entry mutated; `none` models the `IndexError` of `random.choice([])`. -/
def get_random_quote (pool : List Quote) (theme : Option String) (pick : Nat)
    (hashStr : String → String) : Option (Quote × List Quote) :=
  if pool = [] then none
  else
    let j := chosenIdx pool theme pick
    let q := updLocal hashStr (pool.getD j default)
    some (q, pool.set j q)

/-! ## app/core/quote_fetcher.py — fetch_random_quote -/

/-- The retry loop of `fetch_random_quote` (up to 3 attempts): a successful
fetch is inserted into the cache (with FIFO eviction) and persisted — an
exception from `_save_cache`'s unguarded `mkdir` propagates out of the loop;
the record is returned when it matches the requested theme or the theme is
`'auto'`; otherwise the loop sleeps 1 second (not after the last attempt) and
retries. -/
def fetchAttemptLoop (env : FetchEnv) (theme : String) :
    FetcherState → ℚ → Nat → Nat → Except PyExn (Option Quote × FetcherState × ℚ)
  | st, now, _, 0 => .ok (none, st, now)
  | st, now, attempt, r + 1 =>
    match fetch_single_quote env attempt with
    | some q =>
      let cache2 : Cache := { quotes := addToCache st.cache.quotes q, timestamp := now }
      let st2 : FetcherState := { st with cache := cache2 }
      match save_cache env with
      | .error e => .error e
      | .ok _ =>
        if theme ≠ "auto" ∧ matches_theme q theme then .ok (some q, st2, now)
        else if theme = "auto" then .ok (some q, st2, now)
        else fetchAttemptLoop env theme st2 (if attempt < 2 then now + 1 else now) (attempt + 1) r
    | none => fetchAttemptLoop env theme st (if attempt < 2 then now + 1 else now) (attempt + 1) r

/-- `QuoteFetcher.fetch_random_quote`: fresh cache (age < 300 s) → serve from
cache; else rate-limit wait, up to 3 remote attempts, then cache fallback,
then the local pool, then the hard-coded fallback.  Takes the raw value
`_load_cache` stored in `self.cache` and the last request stamp; returns the
result, the new fetcher state and the new clock, or the exception the call
raises: `AttributeError` when `self.cache` is not a dict (its very first use,
`self.cache.get('timestamp', 0)`, fails), or the `OSError` escaping
`_save_cache`. -/
def fetch_random_quote (env : FetchEnv) (cacheVal : CacheVal) (lastRequestTime : ℚ)
    (theme : String) : Except PyExn (Option Quote × FetcherState × ℚ) :=
  match cacheVal with
  | .other => .error .attrError
  | .dict cache =>
    match (if env.now - cache.timestamp < 300
           then get_from_cache env.pickIdx cache theme else none) with
    | some q => .ok (some q, ⟨cache, lastRequestTime⟩, env.now)
    | none =>
      match fetchAttemptLoop env theme
          ⟨cache, (wait_for_rate_limit lastRequestTime env.now).2⟩
          ((wait_for_rate_limit lastRequestTime env.now).2) 0 3 with
      | .error e => .error e
      | .ok (some q, st2, now2) => .ok (some q, st2, now2)
      | .ok (none, st2, now2) =>
        match get_from_cache env.pickIdx st2.cache theme with
        | some q => .ok (some q, st2, now2)
        | none =>
          if env.localOk then
            match get_random_quote FRENCH_QUOTES (some theme) env.pickIdx env.hashStr with
            | some (q, _) => .ok (some q, st2, now2)
            | none => .ok (none, st2, now2)
          else .ok (some fallbackQuote, st2, now2)

/-- The record a fetch call hands its caller, when it returns normally. -/
def resultOf (r : Except PyExn (Option Quote × FetcherState × ℚ)) : Option Quote :=
  match r with
  | .ok (q, _, _) => q
  | .error _ => none

/-! ## app/utils/cache_utils.py — caller-side deduplication -/

/-- The recent-set update of `fetch_unique_quote` (lines 42-49): `add` the
hash, and when the set then holds more than 30 elements, drop the first
element of `list(the_set)` and rebuild the set.  A Python `set` retains no
insertion order, so the enumeration `list(...)` is supplied as a parameter
`order` (in CPython it is the hash-table iteration order). -/
def sessionInsert {α : Type} [DecidableEq α] (order : Finset α → List α)
    (cache : Finset α) (h : α) : Finset α :=
  let c := insert h cache
  if 30 < c.card then ((order c).drop 1).toFinset else c

/-- One admissible set-enumeration order: ascending.  Any enumeration whose
elements are exactly the set's elements is a possible `list(s)`. -/
def sortOrder (s : Finset ℕ) : List ℕ := s.sort (· ≤ ·)

/-- The retry loop of `fetch_unique_quote`: skip fetch failures and records
whose content hash is already in the recent-set; accept a fresh record and
insert its hash; after `maxAttempts` failures, clear the set and return the
next fetch unconditionally. -/
def fetchUniqueLoop {α : Type} [DecidableEq α] (order : Finset α → List α)
    (results : Nat → Option Quote) (md5F : String → α) :
    Finset α → Nat → Nat → Option Quote × Finset α
  | _, attempt, 0 => (results attempt, ∅)
  | cache, attempt, r + 1 =>
    match results attempt with
    | none => fetchUniqueLoop order results md5F cache (attempt + 1) r
    | some q =>
      let h := md5F q.content
      if h ∉ cache then (some q, sessionInsert order cache h)
      else fetchUniqueLoop order results md5F cache (attempt + 1) r

/-- `fetch_unique_quote(fetcher, theme, max_attempts=10)`. -/
def fetch_unique_quote {α : Type} [DecidableEq α] (order : Finset α → List α)
    (results : Nat → Option Quote) (md5F : String → α) (cache : Finset α)
    (maxAttempts : Nat := 10) : Option Quote × Finset α :=
  fetchUniqueLoop order results md5F cache 0 maxAttempts

/-! ## app/design/image_generator.py — word wrap -/

/-- Python `str.split()` (no separator): maximal runs of non-whitespace. -/
def pySplit (l : List Char) : List (List Char) :=
  match l with
  | [] => []
  | c :: cs =>
    if c.isWhitespace then pySplit cs
    else (c :: cs.takeWhile (fun d => !d.isWhitespace))
      :: pySplit (cs.dropWhile (fun d => !d.isWhitespace))
termination_by l.length
decreasing_by
  · simp
  · have hd : ∀ (p : Char → Bool) (l : List Char), (List.dropWhile p l).length ≤ l.length := by
      intro p l
      induction l with
      | nil => simp [List.dropWhile]
      | cons a t ih =>
        rw [List.dropWhile_cons]
        split
        · exact Nat.le_succ_of_le ih
        · simp
    simp only [List.length_cons]
    exact Nat.lt_succ_of_le (hd _ _)

/-- The `' '`-separated joining used by `_wrap_text` for candidate lines. -/
def joinSp (ws : List (List Char)) : List Char := List.intercalate [' '] ws

/-- The word loop of `ImageGenerator._wrap_text`: extend the current line while
the candidate line's rendered width stays within `maxW`; on overflow, close the
current line (when non-empty) and restart from the overflowing word.  The
result is the list of word groups; the trailing non-empty group is emitted. -/
def wrapLoop (width : List Char → Nat) (maxW : Nat) :
    List (List Char) → List (List Char) → List (List (List Char))
  | current, [] => if current.isEmpty then [] else [current]
  | current, w :: ws =>
    if width (joinSp (current ++ [w])) ≤ maxW then
      wrapLoop width maxW (current ++ [w]) ws
    else if current.isEmpty then wrapLoop width maxW [w] ws
    else current :: wrapLoop width maxW [w] ws

/-- `ImageGenerator._wrap_text` over the characters of the text, with the
font's pixel measure abstracted as `width`.  `return lines or [text]`. -/
def wrap_text (width : List Char → Nat) (maxW : Nat) (text : List Char) :
    List (List Char) :=
  match (wrapLoop width maxW [] (pySplit text)).map joinSp with
  | [] => [text]
  | l :: ls => l :: ls

/-! ## app/design/image_generator.py — rendering -/

/-- An abstract loaded font: its pixel-width measure
(`font.getbbox(s)[2] - font.getbbox(s)[0]`). -/
structure FontM where
  widthOf : String → Nat

abbrev RGB := Nat × Nat × Nat

/-- The canvas fill: `Image.new('RGB', size, color)` or
`_create_gradient_background(c1, c2)` (a vertical linear interpolation between
the two stop colors, abstracted to its stops). -/
inductive Background
  | solid (c : RGB)
  | gradient (c1 c2 : RGB)
deriving DecidableEq

/-- One PIL draw call. -/
inductive DrawCmd
  | txt (pos : Int × Int) (s : String) (fill : RGB)
  | rectFill (p1 p2 : Int × Int) (fill : RGB)
  | rectOutline (p1 p2 : Int × Int) (outline : RGB) (w : Nat)
  | poly (pts : List (Int × Int)) (fill : RGB)
deriving DecidableEq

/-- The produced image: its background and the draw calls applied to it. -/
structure PILImage where
  bg : Background
  ops : List DrawCmd
deriving DecidableEq

/-- `ImageGenerator.PADDING_BY_STYLE` (note: no entry for the `'élégant'`
spelling, which therefore gets the default 100). -/
def PADDING_BY_STYLE : List (String × Nat) :=
  [("minimal", 80), ("moderne", 100), ("elegant", 120)]

/-- `ImageGenerator._calculate_font_size`: the four tiers of
`FONT_SIZES['quote']`. -/
def calculate_font_size (text_length : Nat) : Nat :=
  if text_length < 60 then 48
  else if text_length < 120 then 42
  else if text_length < 180 then 36
  else 32

/-- The per-line drawing loop shared by the three renderers: each line is
centered horizontally and the cursor advances by `line_spacing`. -/
def drawLines (size : Nat × Nat) (quote_font : FontM) (text_color : RGB)
    (line_spacing : Nat) (startY : Int) (quote_lines : List String) :
    List DrawCmd × Int :=
  quote_lines.foldl
    (fun (acc : List DrawCmd × Int) line =>
      (acc.1 ++ [DrawCmd.txt
          (Int.fdiv ((size.1 : Int) - (quote_font.widthOf line : Int)) 2, acc.2)
          line text_color],
       acc.2 + (line_spacing : Int)))
    ([], startY)

/-- `ImageGenerator._render_minimal_style`. -/
def render_minimal_style (size : Nat × Nat) (quote_lines : List String)
    (author : String) (quote_font author_font : FontM) (text_color : RGB)
    (line_spacing : Nat) : List DrawCmd :=
  let totalHeight := quote_lines.length * line_spacing + 80
  let startY : Int := Int.fdiv ((size.2 : Int) - (totalHeight : Int)) 2
  let step := drawLines size quote_font text_color line_spacing startY quote_lines
  let authorText := "— " ++ author
  step.1 ++ [DrawCmd.txt
      (Int.fdiv ((size.1 : Int) - (author_font.widthOf authorText : Int)) 2, step.2 + 40)
      authorText text_color]

/-- `ImageGenerator._render_moderne_style`. -/
def render_moderne_style (fonts : Nat → String → String → FontM)
    (font_family : String) (size : Nat × Nat) (quote_lines : List String)
    (author : String) (quote_font author_font : FontM)
    (text_color accent_color : RGB) (line_spacing : Nat) (padding : Nat) :
    List DrawCmd :=
  let _decorative := fonts 72 "bold" font_family
  let totalHeight := quote_lines.length * line_spacing + 80
  let startY : Int := Int.fdiv ((size.2 : Int) - (totalHeight : Int)) 2
  let openQuote := DrawCmd.txt ((padding : Int) - 10, startY - 45) "\"" accent_color
  let step := drawLines size quote_font text_color line_spacing startY quote_lines
  let closeQuote :=
    DrawCmd.txt ((size.1 : Int) - (padding : Int) - 25, step.2 - 50) "\"" accent_color
  let authorText := "— " ++ author
  let authorCmd := DrawCmd.txt
      (Int.fdiv ((size.1 : Int) - (author_font.widthOf authorText : Int)) 2, step.2 + 40)
      authorText text_color
  let lineY := step.2 + 85
  let bar := DrawCmd.rectFill
      (Int.fdiv (size.1 : Int) 2 - 70, lineY) (Int.fdiv (size.1 : Int) 2 + 70, lineY + 3)
      accent_color
  openQuote :: step.1 ++ [closeQuote, authorCmd, bar]

/-- `ImageGenerator._render_elegant_style`. -/
def render_elegant_style (fonts : Nat → String → String → FontM)
    (font_family : String) (size : Nat × Nat) (quote_lines : List String)
    (author : String) (quote_font author_font : FontM)
    (text_color accent_color : RGB) (line_spacing : Nat) (padding : Nat) :
    List DrawCmd :=
  let border := DrawCmd.rectOutline (45, 45)
      ((size.1 : Int) - 45, (size.2 : Int) - 45) accent_color 2
  let _decorative := fonts 55 "bold" font_family
  let totalHeight := quote_lines.length * line_spacing + 80
  let startY : Int := Int.fdiv ((size.2 : Int) - (totalHeight : Int)) 2
  let openQuote := DrawCmd.txt ((padding : Int) + 5, startY - 35) "\"" accent_color
  let step := drawLines size quote_font text_color line_spacing startY quote_lines
  let closeQuote :=
    DrawCmd.txt ((size.1 : Int) - (padding : Int) - 35, step.2 - 45) "\"" accent_color
  let authorText := "— " ++ author ++ " —"
  let authorCmd := DrawCmd.txt
      (Int.fdiv ((size.1 : Int) - (author_font.widthOf authorText : Int)) 2, step.2 + 40)
      authorText text_color
  let diamondY := step.2 + 85
  let diamonds := ([-90, 0, 90] : List Int).map (fun offset =>
    DrawCmd.poly
      [(Int.fdiv (size.1 : Int) 2 + offset, diamondY - 4),
       (Int.fdiv (size.1 : Int) 2 + offset + 4, diamondY),
       (Int.fdiv (size.1 : Int) 2 + offset, diamondY + 4),
       (Int.fdiv (size.1 : Int) 2 + offset - 4, diamondY)]
      accent_color)
  border :: openQuote :: step.1 ++ [closeQuote, authorCmd] ++ diamonds

/-- `ImageGenerator.create_image`: background (gradient with equal stops for
the moderne/elegant family, else a solid fill of `colors[0]`), color lookups,
padding from `PADDING_BY_STYLE` with default 100, font-size tier, word wrap,
then the style dispatch — a style matching none of the branches draws
nothing.  `none` models the `IndexError`/`ValueError` raised on a missing or
invalid color. -/
def create_image (fonts : Nat → String → String → FontM) (size : Nat × Nat)
    (quote_text author : String) (colors : List String) (style : String)
    (font_family : String) : Option PILImage := do
  let c0 ← colors[0]?
  let bg ←
    if style ∈ (["moderne", "elegant", "élégant"] : List String) ∧ 2 ≤ colors.length then
      (hex_to_rgb c0).map (fun rgb => Background.gradient rgb rgb)
    else
      (hex_to_rgb c0).map Background.solid
  let text_color ← hex_to_rgb (if 1 < colors.length then colors.getD 1 "" else "#FFFFFF")
  let accentS ← (if 2 < colors.length then colors[2]? else colors[1]?)
  let accent_color ← hex_to_rgb accentS
  let padding := (PADDING_BY_STYLE.lookup style).getD 100
  let availableWidth := size.1 - 2 * padding
  let fontSize := calculate_font_size quote_text.length
  let quoteFont := fonts fontSize "bold" font_family
  let authorFont := fonts 32 "regular" font_family
  let quoteLines :=
    (wrap_text (fun l => quoteFont.widthOf ⟨l⟩) availableWidth quote_text.data).map
      (fun l => (⟨l⟩ : String))
  let lineSpacing := fontSize * 3 / 2
  let ops :=
    if style = "minimal" then
      render_minimal_style size quoteLines author quoteFont authorFont text_color lineSpacing
    else if style = "moderne" then
      render_moderne_style fonts font_family size quoteLines author quoteFont authorFont
        text_color accent_color lineSpacing padding
    else if style = "elegant" ∨ style = "élégant" then
      render_elegant_style fonts font_family size quoteLines author quoteFont authorFont
        text_color accent_color lineSpacing padding
    else []
  pure ⟨bg, ops⟩

lemma lowerHex_digitChar {c : Char} (h : c ∈ lowerHexDigits) :
    ∃ v, hexDigitVal c = some v ∧ v < 16 ∧ Nat.digitChar v = c := by
  have hall : lowerHexDigits.all (fun c =>
      match hexDigitVal c with
      | some v => decide (v < 16) && (Nat.digitChar v == c)
      | none => false) = true := by decide
  rw [List.all_eq_true] at hall
  have := hall c h
  revert this
  cases hv : hexDigitVal c with
  | none => simp
  | some v =>
    intro hok
    simp only [Bool.and_eq_true, decide_eq_true_eq, beq_iff_eq] at hok
    exact ⟨v, rfl, hok.1, hok.2⟩

lemma lowerHex_ne_hash {c : Char} (h : c ∈ lowerHexDigits) : c ≠ '#' := by
  intro hc; subst hc; revert h; decide

lemma parseHex_pair {x y : Char} {vx vy : Nat}
    (hx : hexDigitVal x = some vx) (hy : hexDigitVal y = some vy) :
    parseHex [x, y] = some (16 * vx + vy) := by
  simp [parseHex, parseHexLoop, hx, hy]

lemma toHex2_pair {vx vy : Nat} (hx : vx < 16) (hy : vy < 16) :
    toHex2 (16 * vx + vy) = [Nat.digitChar vx, Nat.digitChar vy] := by
  have hlt : 16 * vx + vy < 256 := by omega
  have hdiv : (16 * vx + vy) / 16 = vx := by omega
  have hmod : (16 * vx + vy) % 16 = vy := by omega
  simp [toHex2, hlt, hdiv, hmod]

/-- C5, counterexample: the claim fails as stated.  `#1A1A1A` is a valid
6-digit hex color (it is the near-black text color the palette itself uses),
but the round trip returns its lowercase form, which is a different string. -/
theorem c5_roundtrip_fails_on_uppercase :
    hex_to_rgb "#1A1A1A" = some (26, 26, 26) ∧
    rgb_to_hex 26 26 26 = "#1a1a1a" ∧
    rgb_to_hex 26 26 26 ≠ "#1A1A1A" := by
  refine ⟨by decide, by decide, by decide⟩

/-- C5 (amended): for every 6-digit hex color written as `#` followed by six
lowercase hex digits, `rgb_to_hex (hex_to_rgb c) = c`. -/
theorem c5_roundtrip_lowercase (c : String) (a1 a2 a3 a4 a5 a6 : Char)
    (hdata : c.data = ['#', a1, a2, a3, a4, a5, a6])
    (h1 : a1 ∈ lowerHexDigits) (h2 : a2 ∈ lowerHexDigits)
    (h3 : a3 ∈ lowerHexDigits) (h4 : a4 ∈ lowerHexDigits)
    (h5 : a5 ∈ lowerHexDigits) (h6 : a6 ∈ lowerHexDigits) :
    ∃ r g b, hex_to_rgb c = some (r, g, b) ∧ rgb_to_hex r g b = c := by
  obtain ⟨v1, hv1, hl1, hc1⟩ := lowerHex_digitChar h1
  obtain ⟨v2, hv2, hl2, hc2⟩ := lowerHex_digitChar h2
  obtain ⟨v3, hv3, hl3, hc3⟩ := lowerHex_digitChar h3
  obtain ⟨v4, hv4, hl4, hc4⟩ := lowerHex_digitChar h4
  obtain ⟨v5, hv5, hl5, hc5⟩ := lowerHex_digitChar h5
  obtain ⟨v6, hv6, hl6, hc6⟩ := lowerHex_digitChar h6
  have hne : a1 ≠ '#' := lowerHex_ne_hash h1
  have hdrop : c.data.dropWhile (· = '#') = [a1, a2, a3, a4, a5, a6] := by
    rw [hdata]
    simp [List.dropWhile_cons, hne]
  refine ⟨16 * v1 + v2, 16 * v3 + v4, 16 * v5 + v6, ?_, ?_⟩
  · simp only [hex_to_rgb, hdrop]
    simp [parseHex_pair hv1 hv2, parseHex_pair hv3 hv4, parseHex_pair hv5 hv6]
  · unfold rgb_to_hex
    rw [toHex2_pair hl1 hl2, toHex2_pair hl3 hl4, toHex2_pair hl5 hl6,
        hc1, hc2, hc3, hc4, hc5, hc6]
    cases c with
    | mk data => simp_all

/-- C5 witness: the amended round trip evaluated on `#0a1b2c`. -/
theorem c5_roundtrip_lowercase_witness : rgb_to_hex 10 27 44 = "#0a1b2c" := by
  obtain ⟨r, g, b, hrg, hrt⟩ :=
    c5_roundtrip_lowercase "#0a1b2c" '0' 'a' '1' 'b' '2' 'c'
      (by decide) (by decide) (by decide) (by decide) (by decide) (by decide) (by decide)
  have h3 := hrg.symm.trans
    (show hex_to_rgb "#0a1b2c" = some ((10 : Nat), (27 : Nat), (44 : Nat)) from by decide)
  simp only [Option.some.injEq, Prod.mk.injEq] at h3
  obtain ⟨rfl, rfl, rfl⟩ := h3
  exact hrt

/-- C6: `ensure_contrast` returns a text color whose brightness lies on the
opposite side of the 128 threshold from the background's brightness:
near-black `#1A1A1A` (brightness 26) when the background brightness exceeds
128, else near-white `#FAFAFA` (brightness 250). -/
theorem c6_ensure_contrast (bg tc : String) (b : ℚ)
    (hb : calculate_brightness bg = some b) :
    ∃ tcol b2, ensure_contrast bg tc = some tcol ∧
      calculate_brightness tcol = some b2 ∧
      (128 < b ↔ b2 < 128) ∧ (b ≤ 128 ↔ 128 < b2) ∧
      (128 < b → tcol = "#1A1A1A") ∧ (b ≤ 128 → tcol = "#FAFAFA") := by
  have hdark : calculate_brightness "#1A1A1A" = some 26 := by
    have h : hex_to_rgb "#1A1A1A" = some (26, 26, 26) := by decide
    simp [calculate_brightness, h]
    norm_num
  have hlight : calculate_brightness "#FAFAFA" = some 250 := by
    have h : hex_to_rgb "#FAFAFA" = some (250, 250, 250) := by decide
    simp [calculate_brightness, h]
    norm_num
  unfold ensure_contrast
  rw [hb]
  by_cases h : (128 : ℚ) < b
  · refine ⟨"#1A1A1A", 26, by simp [h], hdark, ?_, ?_, fun _ => rfl, fun hle => absurd h hle.not_lt⟩
    · exact iff_of_true h (by norm_num)
    · exact iff_of_false (not_le.mpr h) (by norm_num)
  · refine ⟨"#FAFAFA", 250, by simp [h], hlight, ?_, ?_, fun hgt => absurd hgt h, fun _ => rfl⟩
    · exact iff_of_false h (by norm_num)
    · exact iff_of_true (not_lt.mp h) (by norm_num)

lemma wait_sleep (last now : ℚ) (h : now - last < MIN_REQUEST_DELAY) :
    wait_for_rate_limit last now
      = (MIN_REQUEST_DELAY - (now - last), now + (MIN_REQUEST_DELAY - (now - last))) := by
  simp [wait_for_rate_limit, h]

lemma wait_nosleep (last now : ℚ) (h : ¬ now - last < MIN_REQUEST_DELAY) :
    wait_for_rate_limit last now = (0, now) := by
  simp [wait_for_rate_limit, h]

lemma wait_stamp_ge (last now : ℚ) :
    MIN_REQUEST_DELAY ≤ (wait_for_rate_limit last now).2 - last := by
  by_cases h : now - last < MIN_REQUEST_DELAY
  · rw [wait_sleep last now h]
    simp
    linarith
  · rw [wait_nosleep last now h]
    push_neg at h
    simpa using h

/-- C1: back-to-back rate-limited calls.  If the second call arrives less than
`MIN_REQUEST_DELAY` after the first call's stamp, it sleeps exactly the
remainder and stamps the wake-up time; in every case the two stamps (the
instants at which the remote requests are issued) are at least
`MIN_REQUEST_DELAY = 2` apart. -/
theorem c1_rate_limit (last now1 now2 : ℚ) :
    MIN_REQUEST_DELAY = 2 ∧
    MIN_REQUEST_DELAY ≤
      (wait_for_rate_limit (wait_for_rate_limit last now1).2 now2).2
        - (wait_for_rate_limit last now1).2 ∧
    (now2 - (wait_for_rate_limit last now1).2 < MIN_REQUEST_DELAY →
      (wait_for_rate_limit (wait_for_rate_limit last now1).2 now2).1
          = MIN_REQUEST_DELAY - (now2 - (wait_for_rate_limit last now1).2) ∧
      (wait_for_rate_limit (wait_for_rate_limit last now1).2 now2).2
          = now2 + (wait_for_rate_limit (wait_for_rate_limit last now1).2 now2).1) := by
  refine ⟨rfl, wait_stamp_ge _ _, ?_⟩
  intro h
  rw [wait_sleep _ _ h]
  exact ⟨rfl, rfl⟩

/-- C1 witness: second call 1 time-unit after the first stamp sleeps 1 and
issues at stamp distance exactly 2. -/
theorem c1_rate_limit_witness :
    (wait_for_rate_limit (wait_for_rate_limit 0 0).2 3).1 = 1 ∧
    (wait_for_rate_limit (wait_for_rate_limit 0 0).2 3).2 = 4 := by
  have h := (c1_rate_limit 0 0 3).2.2 (by norm_num [wait_for_rate_limit, MIN_REQUEST_DELAY])
  have ht : (wait_for_rate_limit (0 : ℚ) 0).2 = 2 := by
    norm_num [wait_for_rate_limit, MIN_REQUEST_DELAY]
  constructor
  · rw [h.1, ht]; norm_num [MIN_REQUEST_DELAY]
  · rw [h.2, h.1, ht]; norm_num [MIN_REQUEST_DELAY]

lemma foldl_addToCache {α : Type} (l acc : List α) (hacc : acc.length ≤ 50) :
    List.foldl addToCache acc l = (acc ++ l).drop (acc.length + l.length - 50) := by
  induction l generalizing acc with
  | nil =>
    have h0 : acc.length - 50 = 0 := by omega
    simp [h0]
  | cons q l ih =>
    rw [List.foldl_cons]
    by_cases hge : acc.length ≥ 50
    · have h50 : acc.length = 50 := le_antisymm hacc hge
      have hadd : addToCache acc q = acc.drop 1 ++ [q] := by simp [addToCache, hge]
      have hlen : (acc.drop 1 ++ [q]).length ≤ 50 := by simp; omega
      rw [hadd, ih _ hlen]
      cases acc with
      | nil => simp at h50
      | cons a t =>
        have ht : t.length = 49 := by simp at h50; omega
        have e1 : ((a :: t).drop 1 ++ [q]).length + l.length - 50 = l.length := by
          simp [ht]
        have e2 : (a :: t).length + (q :: l).length - 50 = l.length + 1 := by
          simp [ht]
        rw [e1, e2]
        have e3 : ((a :: t).drop 1 ++ [q]) ++ l = t ++ q :: l := by simp
        rw [e3, List.cons_append, List.drop_succ_cons]
    · push_neg at hge
      have hadd : addToCache acc q = acc ++ [q] := by simp [addToCache]; omega
      have hlen : (acc ++ [q]).length ≤ 50 := by simp; omega
      rw [hadd, ih _ hlen]
      have e1 : (acc ++ [q]) ++ l = acc ++ q :: l := by simp
      have e2 : (acc ++ [q]).length + l.length - 50 = acc.length + (q :: l).length - 50 := by
        simp; omega
      rw [e1, e2]

/-- C2: the cache insertion keeps the cache at 50 records or fewer, evicts the
oldest (FIFO) when the cache already holds 50, and after inserting 51 distinct
records from empty, the earliest-inserted record is gone and exactly 50
remain. -/
theorem c2_cache_fifo {α : Type} (l : List α) (h51 : l.length = 51) (hnd : l.Nodup) :
    (∀ (qs : List α) (q : α), qs.length ≤ 50 → (addToCache qs q).length ≤ 50) ∧
    (∀ (qs : List α) (q : α), qs.length = 50 → addToCache qs q = qs.drop 1 ++ [q]) ∧
    List.foldl addToCache ([] : List α) l = l.drop 1 ∧
    (List.foldl addToCache ([] : List α) l).length = 50 ∧
    ∀ x, l.head? = some x → x ∉ List.foldl addToCache ([] : List α) l := by
  have hfold : List.foldl addToCache ([] : List α) l = l.drop 1 := by
    rw [foldl_addToCache l [] (by simp)]
    simp [h51]
  refine ⟨?_, ?_, hfold, ?_, ?_⟩
  · intro qs q hle
    unfold addToCache
    split_ifs with h
    · simp; omega
    · simp; omega
  · intro qs q h50
    simp [addToCache, h50]
  · rw [hfold]; simp [h51]
  · intro x hx
    rw [hfold]
    cases l with
    | nil => simp at hx
    | cons a t =>
      simp only [List.head?_cons, Option.some.injEq] at hx
      subst hx
      simpa using (List.nodup_cons.mp hnd).1

/-- C2 witness: inserting the 51 distinct records 0..50 leaves records 1..50;
record 0 (the earliest) is gone and exactly 50 remain. -/
theorem c2_cache_fifo_witness :
    List.foldl addToCache ([] : List ℕ) (List.range 51) = (List.range 51).drop 1 ∧
    (List.foldl addToCache ([] : List ℕ) (List.range 51)).length = 50 ∧
    0 ∉ List.foldl addToCache ([] : List ℕ) (List.range 51) := by
  obtain ⟨_, _, h3, h4, h5⟩ := c2_cache_fifo (List.range 51) (by simp) (List.nodup_range 51)
  exact ⟨h3, h4, h5 0 rfl⟩

lemma any_occursIn_iff (ks : List String) (c : List Char)
    (hlow : ∀ k ∈ ks, (lowerStr k).data = k.data) :
    (ks.any (fun k => occursIn k.data c) = true ↔
      ∃ k ∈ ks, occursIn (lowerStr k).data c = true) := by
  rw [List.any_eq_true]
  constructor
  · rintro ⟨k, hk, h⟩
    exact ⟨k, hk, by rw [hlow k hk]; exact h⟩
  · rintro ⟨k, hk, h⟩
    refine ⟨k, hk, ?_⟩
    rw [hlow k hk] at h
    exact h

/-- C8: `'auto'` matches every record; a theme outside the keyword table (whose
`dict.get` default is the empty, hence falsy, keyword list) matches every
record; and a table theme with a non-empty keyword list matches exactly the
records whose content contains one of its keywords case-insensitively. -/
theorem c8_theme_matching (theme : String) (q : Quote) :
    (theme = "auto" → matches_theme q theme = true) ∧
    (theme ∉ themeKeys → matches_theme q theme = true) ∧
    (theme ∈ themeKeys → theme ≠ "auto" →
      (matches_theme q theme = true ↔
        ∃ k ∈ (kwGet theme).getD [], occursIn (lowerStr k).data (lowerStr q.content).data = true)) := by
  refine ⟨?_, ?_, ?_⟩
  · intro h
    simp [matches_theme, h]
  · intro h
    simp only [themeKeys, THEME_KEYWORDS, List.map_cons, List.mem_cons, not_or] at h
    obtain ⟨h1, h2, h3, h4, h5, h6, h7, h8, -⟩ := h
    have b1 : (theme == "motivation") = false := beq_eq_false_iff_ne.mpr h1
    have b2 : (theme == "sagesse") = false := beq_eq_false_iff_ne.mpr h2
    have b3 : (theme == "amour") = false := beq_eq_false_iff_ne.mpr h3
    have b4 : (theme == "courage") = false := beq_eq_false_iff_ne.mpr h4
    have b5 : (theme == "succès") = false := beq_eq_false_iff_ne.mpr h5
    have b6 : (theme == "bonheur") = false := beq_eq_false_iff_ne.mpr h6
    have b7 : (theme == "inspiration") = false := beq_eq_false_iff_ne.mpr h7
    have b8 : (theme == "auto") = false := beq_eq_false_iff_ne.mpr h8
    simp [matches_theme, kwGet, THEME_KEYWORDS, List.lookup, h8,
      b1, b2, b3, b4, b5, b6, b7, b8]
  · intro hmem hne
    have hcases : theme = "motivation" ∨ theme = "sagesse" ∨ theme = "amour" ∨
        theme = "courage" ∨ theme = "succès" ∨ theme = "bonheur" ∨
        theme = "inspiration" ∨ theme = "auto" := by
      simpa [themeKeys, THEME_KEYWORDS] using hmem
    rcases hcases with rfl | rfl | rfl | rfl | rfl | rfl | rfl | rfl
    · exact any_occursIn_iff _ _ (by decide)
    · exact any_occursIn_iff _ _ (by decide)
    · exact any_occursIn_iff _ _ (by decide)
    · exact any_occursIn_iff _ _ (by decide)
    · exact any_occursIn_iff _ _ (by decide)
    · exact any_occursIn_iff _ _ (by decide)
    · exact any_occursIn_iff _ _ (by decide)
    · exact absurd rfl hne

/-- C8 witness: a record containing "GOALS" matches `motivation`
case-insensitively, and `'auto'` matches a record with none of the keywords. -/
theorem c8_theme_matching_witness :
    matches_theme { content := "Reach your GOALS", author := "", tags := [] } "motivation" = true ∧
    matches_theme { content := "xyz", author := "", tags := [] } "auto" = true := by
  constructor
  · exact ((c8_theme_matching "motivation"
      { content := "Reach your GOALS", author := "", tags := [] }).2.2 (by decide)
      (by decide)).mpr ⟨"goal", by decide, by decide⟩
  · exact (c8_theme_matching "auto" { content := "xyz", author := "", tags := [] }).1 rfl

lemma FRENCH_QUOTES_ne_nil : FRENCH_QUOTES ≠ [] := by
  simp [FRENCH_QUOTES]

/-- C3, counterexample: two disk behaviours do raise to the caller.  With the
cache stale and the first remote attempt succeeding, a failing `mkdir` in
`_save_cache` (line 55, outside the `try`) propagates `OSError` out of
`fetch_random_quote`; and a valid-JSON non-dict cache file is returned
unvalidated by `_load_cache`, after which `self.cache.get('timestamp', 0)`
raises `AttributeError`. -/
theorem c3_fetch_raises :
    fetch_random_quote
        { now := 400, loadRaw := Except.ok (CacheVal.dict emptyCache),
          mkdirRaw := Except.error (), saveRaw := Except.ok (),
          netResults := fun _ =>
            Except.ok [{ qF := some "hello", aF := some "A", hF := some "id1" }],
          hashStr := fun _ => "", pickIdx := 0, localOk := true }
        (CacheVal.dict emptyCache) 0 "auto" = Except.error PyExn.osError ∧
    load_cache
        { now := 0, loadRaw := Except.ok CacheVal.other,
          mkdirRaw := Except.ok (), saveRaw := Except.ok (),
          netResults := fun _ => Except.ok [], hashStr := fun _ => "",
          pickIdx := 0, localOk := true } = CacheVal.other ∧
    fetch_random_quote
        { now := 0, loadRaw := Except.ok CacheVal.other,
          mkdirRaw := Except.ok (), saveRaw := Except.ok (),
          netResults := fun _ => Except.ok [], hashStr := fun _ => "",
          pickIdx := 0, localOk := true }
        CacheVal.other 0 "auto" = Except.error PyExn.attrError := by
  refine ⟨?_, rfl, rfl⟩
  have hage : ¬((400 : ℚ) - 0 < 300) := by norm_num
  simp [fetch_random_quote, fetchAttemptLoop, fetch_single_quote, save_cache,
    get_from_cache, emptyCache, hage]

lemma fetchAttemptLoop_ok (env : FetchEnv) (theme : String)
    (hmk : env.mkdirRaw = Except.ok ()) :
    ∀ (r : Nat) (st : FetcherState) (now : ℚ) (attempt : Nat),
      (fetchAttemptLoop env theme st now attempt r).isOk = true := by
  intro r
  induction r with
  | zero =>
    intro st now attempt
    rfl
  | succ n ih =>
    intro st now attempt
    simp only [fetchAttemptLoop]
    cases hfs : fetch_single_quote env attempt with
    | none => exact ih _ _ _
    | some q =>
      have hsave : save_cache env = Except.ok () := by
        unfold save_cache
        rw [hmk]
        cases env.saveRaw <;> rfl
      simp only [hsave]
      split_ifs <;> first | rfl | exact ih _ _ _

/-- C3 (amended): `fetch_random_quote` raises nothing for any theme, any
remote behaviour (network errors and 429 become empty attempts), any
unreadable or corrupt cache file (treated as the empty cache) and any dump
failure inside `_save_cache`'s `try` (a logged no-op); under those conditions
it always returns a record and, when every remote attempt fails with the
cache empty and the local pool import unavailable, exactly the hard-coded
fallback record.  The guards exclude precisely the two raising behaviours of
the counterexample: a failing `mkdir` during save and a valid-JSON non-dict
cache value. -/
theorem c3_fetch_no_raise_guarded :
    (∀ env : FetchEnv, env.loadRaw = Except.error () →
      load_cache env = CacheVal.dict emptyCache) ∧
    (∀ (env : FetchEnv) (a : Nat) (e : NetErr),
      env.netResults a = Except.error e → fetch_single_quote env a = none) ∧
    (∀ env : FetchEnv, env.mkdirRaw = Except.ok () → save_cache env = Except.ok ()) ∧
    (∀ (env : FetchEnv) (c : Cache) (last : ℚ) (theme : String),
      env.mkdirRaw = Except.ok () →
      (fetch_random_quote env (CacheVal.dict c) last theme).isOk = true ∧
      (resultOf (fetch_random_quote env (CacheVal.dict c) last theme)).isSome = true) ∧
    (∀ (env : FetchEnv) (theme : String),
      (∀ a, ∃ e, env.netResults a = Except.error e) → env.localOk = false →
      fetch_random_quote env (CacheVal.dict emptyCache) 0 theme
        = Except.ok (some fallbackQuote,
            ⟨emptyCache, (wait_for_rate_limit 0 env.now).2⟩,
            (wait_for_rate_limit 0 env.now).2 + 1 + 1)) := by
  refine ⟨?_, ?_, ?_, ?_, ?_⟩
  · intro env h
    simp [load_cache, h]
  · intro env a e h
    simp [fetch_single_quote, h]
  · intro env h
    unfold save_cache
    rw [h]
    cases env.saveRaw <;> rfl
  · intro env c last theme hmk
    have key : ∃ out, fetch_random_quote env (CacheVal.dict c) last theme
        = Except.ok out ∧ out.1.isSome = true := by
      simp only [fetch_random_quote]
      split
      · exact ⟨_, rfl, rfl⟩
      · split
        · rename_i e heq
          exfalso
          have hok := fetchAttemptLoop_ok env theme hmk 3
            ⟨c, (wait_for_rate_limit last env.now).2⟩
            ((wait_for_rate_limit last env.now).2) 0
          rw [heq] at hok
          exact Bool.noConfusion hok
        · exact ⟨_, rfl, rfl⟩
        · split
          · exact ⟨_, rfl, rfl⟩
          · split
            · split
              · exact ⟨_, rfl, rfl⟩
              · rename_i hnone
                exfalso
                rw [get_random_quote] at hnone
                simp [FRENCH_QUOTES_ne_nil] at hnone
            · exact ⟨_, rfl, rfl⟩
    obtain ⟨out, hout, hsome⟩ := key
    refine ⟨by rw [hout]; rfl, ?_⟩
    rw [hout]
    simpa [resultOf] using hsome
  · intro env theme hnet hlocal
    obtain ⟨e0, h0⟩ := hnet 0
    obtain ⟨e1, h1⟩ := hnet 1
    obtain ⟨e2, h2⟩ := hnet 2
    simp [fetch_random_quote, fetchAttemptLoop, fetch_single_quote, get_from_cache,
      emptyCache, h0, h1, h2, hlocal]

/-- C3 witness: with the cache load failed (empty cache), every remote
attempt erroring and the local pool import unavailable, the guarded fetch
returns the fallback record without raising. -/
theorem c3_fetch_no_raise_guarded_witness :
    fetch_random_quote
        { now := 0, loadRaw := Except.error (), mkdirRaw := Except.ok (),
          saveRaw := Except.error (),
          netResults := fun _ => Except.error NetErr.http429,
          hashStr := fun _ => "", pickIdx := 0, localOk := false }
        (CacheVal.dict emptyCache) 0 "motivation"
      = Except.ok (some fallbackQuote,
          ⟨emptyCache, (wait_for_rate_limit 0 (0 : ℚ)).2⟩,
          (wait_for_rate_limit 0 (0 : ℚ)).2 + 1 + 1) :=
  c3_fetch_no_raise_guarded.2.2.2.2
    { now := 0, loadRaw := Except.error (), mkdirRaw := Except.ok (),
      saveRaw := Except.error (),
      netResults := fun _ => Except.error NetErr.http429,
      hashStr := fun _ => "", pickIdx := 0, localOk := false }
    "motivation" (fun _ => ⟨NetErr.http429, rfl⟩) rfl

lemma sessionInsert_no_evict {α : Type} [DecidableEq α] (order : Finset α → List α)
    (cache : Finset α) (h : α) (hc : (insert h cache).card ≤ 30) :
    sessionInsert order cache h = insert h cache := by
  simp only [sessionInsert]
  rw [if_neg (by omega)]

lemma foldl_sessionInsert_small {α : Type} [DecidableEq α] (order : Finset α → List α)
    (l : List α) (acc : Finset α) (h : (acc ∪ l.toFinset).card ≤ 30) :
    List.foldl (sessionInsert order) acc l = acc ∪ l.toFinset := by
  induction l generalizing acc with
  | nil => simp
  | cons x t ih =>
    have hsub : insert x acc ⊆ acc ∪ (x :: t).toFinset := by
      intro y hy
      rcases Finset.mem_insert.mp hy with rfl | hy
      · simp
      · exact Finset.mem_union_left _ hy
    have hc : (insert x acc).card ≤ 30 :=
      le_trans (Finset.card_le_card hsub) h
    have hset : insert x acc ∪ t.toFinset = acc ∪ (x :: t).toFinset := by
      ext y
      simp only [Finset.mem_union, Finset.mem_insert, List.toFinset_cons]
      tauto
    rw [List.foldl_cons, sessionInsert_no_evict order acc x hc,
        ih (insert x acc) (by rw [hset]; exact h), hset]

/-- C4: the recent-set eviction is not FIFO.  `sortOrder` is an admissible
`list(...)` enumeration of a Python set (its elements are exactly the set's
elements, without duplicates), yet after inserting the 31 distinct hashes
30, 29, ..., 1, 0 in that order, the survivor set is {1..30}: the evicted
hash is 0, the newest, while 30, the oldest, is still present — the opposite
of FIFO eviction. -/
theorem c4_eviction_not_fifo :
    (∀ s : Finset ℕ, (sortOrder s).toFinset = s ∧ (sortOrder s).Nodup) ∧
    List.foldl (sessionInsert sortOrder) (∅ : Finset ℕ) ((List.range 31).reverse)
      = ((List.range 31).drop 1).toFinset ∧
    30 ∈ ((List.range 31).drop 1).toFinset ∧
    0 ∉ ((List.range 31).drop 1).toFinset := by
  refine ⟨fun s => ⟨Finset.sort_toFinset _ _, Finset.sort_nodup _ _⟩, ?_, by decide, by decide⟩
  have hsplit : (List.range 31).reverse = (List.range' 1 30).reverse ++ [0] := by decide
  rw [hsplit, List.foldl_append]
  have h1 : List.foldl (sessionInsert sortOrder) (∅ : Finset ℕ) ((List.range' 1 30).reverse)
      = (∅ : Finset ℕ) ∪ ((List.range' 1 30).reverse).toFinset :=
    foldl_sessionInsert_small _ _ _ (by decide)
  rw [h1]
  simp only [List.foldl_cons, List.foldl_nil, Finset.empty_union]
  have hins : insert 0 (((List.range' 1 30).reverse).toFinset) = Finset.range 31 := by decide
  have hcard : (insert 0 (((List.range' 1 30).reverse).toFinset)).card = 31 := by
    rw [hins]; exact Finset.card_range 31
  simp only [sessionInsert, hcard]
  rw [if_pos (by omega), hins]
  have hsort : sortOrder (Finset.range 31) = List.range 31 := by
    unfold sortOrder
    exact Finset.sort_range 31
  rw [hsort]

/-- C9, counterexample: fetching from the local static pool does modify the
pool.  `random.choice` returns a reference into `FRENCH_QUOTES` and
`get_random_quote` assigns `length`, `id` and `source` on it, so after one
fetch the pool is no longer equal to its initial value. -/
theorem c9_pool_mutated :
    (get_random_quote FRENCH_QUOTES (some "auto") 0 (fun _ => "h")).map Prod.snd
      ≠ some FRENCH_QUOTES := by
  intro hcontra
  exact absurd
    (congrArg (Option.map (fun l => (l.headD default).sourceF)) hcontra)
    (by decide)

lemma getD_mem {α : Type} (l : List α) (n : Nat) (d : α) (h : n < l.length) :
    l.getD n d ∈ l := by
  induction l generalizing n with
  | nil => simp at h
  | cons a t ih =>
    cases n with
    | zero => simp
    | succ m =>
      rw [List.getD_cons_succ]
      exact List.mem_cons_of_mem a (ih m (by simpa using h))

lemma candIdxs_subset (pool : List Quote) (theme : Option String) :
    ∀ i ∈ candIdxs pool theme, i < pool.length := by
  intro i hi
  cases theme with
  | none =>
    simp only [candIdxs] at hi
    simpa using hi
  | some t =>
    simp only [candIdxs] at hi
    by_cases hc : t ≠ "" ∧ t ≠ "auto"
    · rw [if_pos hc] at hi
      rcases hf : (List.range pool.length).filter
          (fun i => localFilter t (pool.getD i default)) with _ | ⟨f0, fs⟩
      · rw [hf] at hi
        simpa using hi
      · rw [hf] at hi
        have hmem : i ∈ (List.range pool.length).filter
            (fun i => localFilter t (pool.getD i default)) := by rw [hf]; exact hi
        have := List.mem_filter.mp hmem
        simpa using this.1
    · rw [if_neg hc] at hi
      simpa using hi

lemma candIdxs_ne_nil (pool : List Quote) (theme : Option String) (h : pool ≠ []) :
    candIdxs pool theme ≠ [] := by
  have hlen : 0 < pool.length := List.length_pos.mpr h
  have hr : List.range pool.length ≠ [] := by
    intro hcon
    rw [List.range_eq_nil] at hcon
    omega
  cases theme with
  | none =>
    simp only [candIdxs]
    exact hr
  | some t =>
    simp only [candIdxs]
    by_cases hc : t ≠ "" ∧ t ≠ "auto"
    · rw [if_pos hc]
      rcases hf : (List.range pool.length).filter
          (fun i => localFilter t (pool.getD i default)) with _ | ⟨f0, fs⟩
      · exact hr
      · simp
    · rw [if_neg hc]
      exact hr

lemma chosenIdx_lt (pool : List Quote) (theme : Option String) (pick : Nat)
    (h : pool ≠ []) : chosenIdx pool theme pick < pool.length := by
  unfold chosenIdx
  have hne := candIdxs_ne_nil pool theme h
  have hlen : 0 < (candIdxs pool theme).length := List.length_pos.mpr hne
  have hmod : pick % (candIdxs pool theme).length < (candIdxs pool theme).length :=
    Nat.mod_lt _ hlen
  exact candIdxs_subset pool theme _ (getD_mem _ _ _ hmod)

/-- C9 (amended): a local-pool fetch mutates exactly the chosen pool entry,
and only by setting its `length`, `id` and `source` fields; every other pool
entry is left unmodified. -/
theorem c9_local_fetch_mutates_only_chosen (pool : List Quote) (theme : Option String)
    (pick : Nat) (hashStr : String → String) (hne : pool ≠ []) :
    get_random_quote pool theme pick hashStr =
      some (updLocal hashStr (pool.getD (chosenIdx pool theme pick) default),
            pool.set (chosenIdx pool theme pick)
              (updLocal hashStr (pool.getD (chosenIdx pool theme pick) default))) ∧
    chosenIdx pool theme pick < pool.length ∧
    (∀ i, i ≠ chosenIdx pool theme pick →
      (pool.set (chosenIdx pool theme pick)
        (updLocal hashStr (pool.getD (chosenIdx pool theme pick) default)))[i]?
        = pool[i]?) ∧
    (pool.set (chosenIdx pool theme pick)
      (updLocal hashStr (pool.getD (chosenIdx pool theme pick) default))).length
      = pool.length := by
  refine ⟨by simp [get_random_quote, hne], chosenIdx_lt pool theme pick hne, ?_, by simp⟩
  intro i hi
  exact List.getElem?_set_ne (fun hc => hi hc.symm)

/-- C9 witness: the amended statement evaluated on the real pool. -/
theorem c9_local_fetch_witness :
    get_random_quote FRENCH_QUOTES (some "auto") 0 (fun _ => "h") =
      some (updLocal (fun _ => "h")
              (FRENCH_QUOTES.getD (chosenIdx FRENCH_QUOTES (some "auto") 0) default),
            FRENCH_QUOTES.set (chosenIdx FRENCH_QUOTES (some "auto") 0)
              (updLocal (fun _ => "h")
                (FRENCH_QUOTES.getD (chosenIdx FRENCH_QUOTES (some "auto") 0) default))) ∧
    chosenIdx FRENCH_QUOTES (some "auto") 0 < FRENCH_QUOTES.length :=
  ⟨(c9_local_fetch_mutates_only_chosen FRENCH_QUOTES (some "auto") 0 (fun _ => "h")
      FRENCH_QUOTES_ne_nil).1,
   (c9_local_fetch_mutates_only_chosen FRENCH_QUOTES (some "auto") 0 (fun _ => "h")
      FRENCH_QUOTES_ne_nil).2.1⟩

lemma joinSp_singleton (x : List Char) : joinSp [x] = x := by
  simp [joinSp, List.intercalate]

lemma joinSp_cons_cons (a b : List Char) (t : List (List Char)) :
    joinSp (a :: b :: t) = a ++ ' ' :: joinSp (b :: t) := by
  simp [joinSp, List.intercalate, List.intersperse]

lemma joinSp_append (l₁ l₂ : List (List Char)) (h1 : l₁ ≠ []) (h2 : l₂ ≠ []) :
    joinSp (l₁ ++ l₂) = joinSp l₁ ++ ' ' :: joinSp l₂ := by
  induction l₁ with
  | nil => exact absurd rfl h1
  | cons x xs ih =>
    cases xs with
    | nil =>
      rcases List.exists_cons_of_ne_nil h2 with ⟨b, t, rfl⟩
      rw [List.singleton_append, joinSp_cons_cons, joinSp_singleton]
    | cons y ys =>
      rw [List.cons_append, List.cons_append, joinSp_cons_cons,
          ← List.cons_append, ih (by simp), joinSp_cons_cons]
      simp

lemma joinSp_map (G : List (List (List Char))) (hne : ∀ g ∈ G, g ≠ []) :
    joinSp (G.map joinSp) = joinSp G.flatten := by
  induction G with
  | nil => simp [joinSp, List.intercalate]
  | cons g G ih =>
    cases G with
    | nil =>
      rw [show List.map joinSp [g] = [joinSp g] from rfl, joinSp_singleton,
          show ([g] : List (List (List Char))).flatten = g from by simp]
    | cons g' Gs =>
      have hg : g ≠ [] := hne g (by simp)
      have hjoin : (g' :: Gs).flatten ≠ [] := by
        have hg' : g' ≠ [] := hne g' (by simp)
        rcases List.exists_cons_of_ne_nil hg' with ⟨b, t, rfl⟩
        simp
      rw [List.map_cons, List.map_cons, joinSp_cons_cons,
          ← List.map_cons, ih (fun x hx => hne x (by simp [hx]))]
      conv_rhs => rw [List.flatten_cons]
      rw [joinSp_append g (g' :: Gs).flatten hg hjoin]

lemma wrapLoop_join (width : List Char → Nat) (maxW : Nat)
    (ws current : List (List Char)) :
    (wrapLoop width maxW current ws).flatten = current ++ ws := by
  induction ws generalizing current with
  | nil =>
    simp only [wrapLoop]
    split
    · rename_i hc
      simp [List.isEmpty_iff.mp hc]
    · simp
  | cons w ws ih =>
    simp only [wrapLoop]
    split
    · rw [ih (current ++ [w])]
      simp
    · split
      · rename_i hc
        rw [ih [w]]
        simp [List.isEmpty_iff.mp (by assumption)]
      · rw [List.flatten_cons, ih [w]]
        simp

lemma wrapLoop_groups (width : List Char → Nat) (maxW : Nat)
    (ws current : List (List Char)) :
    ∀ g ∈ wrapLoop width maxW current ws, g ≠ [] := by
  induction ws generalizing current with
  | nil =>
    intro g hg
    simp only [wrapLoop] at hg
    split at hg
    · simp at hg
    · rename_i hc
      rcases List.mem_singleton.mp hg with rfl
      exact fun hcon => hc (by simp [hcon])
  | cons w ws ih =>
    intro g hg
    simp only [wrapLoop] at hg
    split at hg
    · exact ih (current ++ [w]) g hg
    · split at hg
      · exact ih [w] g hg
      · rename_i hc
        rcases List.mem_cons.mp hg with rfl | hg
        · exact fun hcon => hc (by simp [hcon])
        · exact ih [w] g hg

lemma takeWhile_all_append (p : Char → Bool) (w rest : List Char)
    (hw : ∀ c ∈ w, p c = true) :
    (w ++ rest).takeWhile p = w ++ rest.takeWhile p := by
  induction w with
  | nil => simp
  | cons a t ih =>
    have hpa : p a = true := hw a (by simp)
    have ht : ∀ c ∈ t, p c = true := fun c hc => hw c (by simp [hc])
    rw [List.cons_append, List.takeWhile_cons, ih ht]
    simp [hpa]

lemma dropWhile_all_append (p : Char → Bool) (w rest : List Char)
    (hw : ∀ c ∈ w, p c = true) :
    (w ++ rest).dropWhile p = rest.dropWhile p := by
  induction w with
  | nil => simp
  | cons a t ih =>
    have hpa : p a = true := hw a (by simp)
    have ht : ∀ c ∈ t, p c = true := fun c hc => hw c (by simp [hc])
    rw [List.cons_append, List.dropWhile_cons, ih ht]
    simp [hpa]

lemma pySplit_words (l : List Char) :
    ∀ w ∈ pySplit l, w ≠ [] ∧ ∀ c ∈ w, c.isWhitespace = false := by
  induction l using pySplit.induct with
  | case1 => simp [pySplit]
  | case2 c cs hc ih =>
    rw [pySplit, if_pos hc]
    exact ih
  | case3 c cs hc ih =>
    intro w hw
    rw [pySplit, if_neg hc] at hw
    rcases List.mem_cons.mp hw with rfl | hw
    · refine ⟨by simp, ?_⟩
      intro d hd
      rcases List.mem_cons.mp hd with rfl | hd
      · simpa using hc
      · have := List.mem_takeWhile_imp hd
        simpa using this
    · exact ih w hw

lemma pySplit_join (ws : List (List Char))
    (hws : ∀ w ∈ ws, w ≠ [] ∧ ∀ c ∈ w, c.isWhitespace = false) :
    pySplit (joinSp ws) = ws := by
  induction ws with
  | nil => simp [joinSp, List.intercalate, pySplit]
  | cons w ws ih =>
    obtain ⟨hwne, hwchars⟩ := hws w (by simp)
    rcases List.exists_cons_of_ne_nil hwne with ⟨c, wrest, rfl⟩
    have hcval : c.isWhitespace = false := hwchars c (by simp)
    have hwrest : ∀ d ∈ wrest, (!d.isWhitespace) = true := by
      intro d hd
      simp [hwchars d (by simp [hd])]
    cases ws with
    | nil =>
      rw [joinSp_singleton, pySplit, if_neg (by simp [hcval])]
      rw [List.takeWhile_eq_self_iff.mpr hwrest]
      rw [List.dropWhile_eq_nil_iff.mpr (fun x hx => hwrest x hx)]
      simp [pySplit]
    | cons w' ws' =>
      rw [joinSp_cons_cons, List.cons_append, pySplit, if_neg (by simp [hcval])]
      rw [takeWhile_all_append _ wrest (' ' :: joinSp (w' :: ws')) hwrest,
          dropWhile_all_append _ wrest (' ' :: joinSp (w' :: ws')) hwrest]
      rw [List.takeWhile_cons]
      simp only [Char.isWhitespace, show ((!(' ').isWhitespace) = false) from by decide]
      rw [List.dropWhile_cons]
      simp only [show ((!(' ').isWhitespace) = false) from by decide]
      rw [if_neg (by simp), if_neg (by simp)]
      rw [pySplit, if_pos (by decide)]
      rw [ih (fun x hx => hws x (by simp [hx]))]
      simp

lemma wrap_text_eq (width : List Char → Nat) (maxW : Nat) (t : List Char)
    (h : pySplit t ≠ []) :
    wrap_text width maxW t = (wrapLoop width maxW [] (pySplit t)).map joinSp := by
  have hGne : wrapLoop width maxW [] (pySplit t) ≠ [] := by
    intro hc
    have := wrapLoop_join width maxW (pySplit t) []
    rw [hc] at this
    simp at this
    exact h this
  have hmapne : (wrapLoop width maxW [] (pySplit t)).map joinSp ≠ [] := by
    simpa using hGne
  rcases List.exists_cons_of_ne_nil hmapne with ⟨l, ls, hmap⟩
  rw [wrap_text, hmap]

/-- C7: re-wrapping the space-rejoined output of the word wrap, with the same
width measure and maximum width, yields the identical line sequence.  The wrap
output is a function of the word sequence alone, and rejoining with single
spaces and re-splitting recovers exactly that word sequence. -/
theorem c7_wrap_idempotent (width : List Char → Nat) (maxW : Nat) (text : List Char) :
    wrap_text width maxW (joinSp (wrap_text width maxW text))
      = wrap_text width maxW text := by
  rcases hs : pySplit text with _ | ⟨w0, ws'⟩
  · have h1 : wrap_text width maxW text = [text] := by
      rw [wrap_text, hs]
      simp [wrapLoop]
    rw [h1, joinSp_singleton, h1]
  · have hlines : wrap_text width maxW text
        = (wrapLoop width maxW [] (w0 :: ws')).map joinSp := by
      have := wrap_text_eq width maxW text (by rw [hs]; simp)
      rwa [hs] at this
    have hG : (wrapLoop width maxW [] (w0 :: ws')).flatten = w0 :: ws' := by
      have := wrapLoop_join width maxW (w0 :: ws') []
      simpa using this
    have hgroups := wrapLoop_groups width maxW (w0 :: ws') []
    have hwords : ∀ w ∈ (w0 :: ws'), w ≠ [] ∧ ∀ c ∈ w, c.isWhitespace = false := by
      rw [← hs]
      exact pySplit_words text
    have hjoined : joinSp (wrap_text width maxW text) = joinSp (w0 :: ws') := by
      rw [hlines, joinSp_map _ hgroups, hG]
    have hsplit2 : pySplit (joinSp (w0 :: ws')) = w0 :: ws' := pySplit_join _ hwords
    have hrewrap : wrap_text width maxW (joinSp (w0 :: ws'))
        = (wrapLoop width maxW [] (w0 :: ws')).map joinSp := by
      have := wrap_text_eq width maxW (joinSp (w0 :: ws')) (by rw [hsplit2]; simp)
      rwa [hsplit2] at this
    rw [hjoined, hrewrap, hlines]

/-- C10: for a style other than the four recognized names, `create_image`
succeeds on a valid 3-color scheme and returns the bare canvas: a solid fill
of the scheme's background color with no draw calls (no quote lines, author
line or decorations), and the padding lookup falls back to the default 100. -/
theorem c10_unknown_style_blank (fonts : Nat → String → String → FontM)
    (size : Nat × Nat) (quote_text author : String) (bg tx ac : String)
    (style : String) (font_family : String) (rgb : RGB)
    (hstyle : style ∉ (["minimal", "moderne", "elegant", "élégant"] : List String))
    (hbg : hex_to_rgb bg = some rgb)
    (htx : (hex_to_rgb tx).isSome = true) (hac : (hex_to_rgb ac).isSome = true) :
    create_image fonts size quote_text author [bg, tx, ac] style font_family
      = some ⟨Background.solid rgb, []⟩ ∧
    (PADDING_BY_STYLE.lookup style).getD 100 = 100 := by
  have h1 : style ≠ "minimal" := fun h => hstyle (by simp [h])
  have h2 : style ≠ "moderne" := fun h => hstyle (by simp [h])
  have h3 : style ≠ "elegant" := fun h => hstyle (by simp [h])
  have h4 : style ≠ "élégant" := fun h => hstyle (by simp [h])
  obtain ⟨t, htx2⟩ := Option.isSome_iff_exists.mp htx
  obtain ⟨a, hac2⟩ := Option.isSome_iff_exists.mp hac
  constructor
  · simp [create_image, h1, h2, h3, h4, hbg, htx2, hac2]
  · have b1 : (style == "minimal") = false := beq_eq_false_iff_ne.mpr h1
    have b2 : (style == "moderne") = false := beq_eq_false_iff_ne.mpr h2
    have b3 : (style == "elegant") = false := beq_eq_false_iff_ne.mpr h3
    simp [PADDING_BY_STYLE, List.lookup, b1, b2, b3]

/-- C10 witness: the style `"fancy"` yields the blank solid-background image. -/
theorem c10_unknown_style_blank_witness :
    create_image (fun _ _ _ => ⟨fun _ => 0⟩) (1080, 1080) "Bonjour" "X"
        ["#112233", "#445566", "#778899"] "fancy" "DejaVu Sans"
      = some ⟨Background.solid (17, 34, 51), []⟩ ∧
    (PADDING_BY_STYLE.lookup "fancy").getD 100 = 100 :=
  c10_unknown_style_blank (fun _ _ _ => ⟨fun _ => 0⟩) (1080, 1080) "Bonjour" "X"
    "#112233" "#445566" "#778899" "fancy" "DejaVu Sans" (17, 34, 51)
    (by decide) (by decide) (by decide) (by decide)

/-- C6 witness: a black background gets the near-white text color. -/
theorem c6_ensure_contrast_witness :
    ensure_contrast "#000000" "#123456" = some "#FAFAFA" ∧
    calculate_brightness "#FAFAFA" = some 250 ∧ (128 : ℚ) < 250 := by
  obtain ⟨tcol, b2, he, hcb, hi1, hi2, hd, hl⟩ :=
    c6_ensure_contrast "#000000" "#123456" 0 (by
      have h : hex_to_rgb "#000000" = some (0, 0, 0) := by decide
      simp [calculate_brightness, h])
  have ht : tcol = "#FAFAFA" := hl (by norm_num)
  subst ht
  have hb2 : b2 = 250 := by
    have := hcb.symm.trans
      (show calculate_brightness "#FAFAFA" = some 250 from by
        have h : hex_to_rgb "#FAFAFA" = some (250, 250, 250) := by decide
        simp [calculate_brightness, h]; norm_num)
    simpa using this
  exact ⟨he, by simpa [hb2] using hcb, by norm_num⟩

end SmartQuote
